import Mathlib

/-!
Verification development for the relayexplorer event/profile ingestion,
caching and relay-discovery subsystem.

The definitions below are a shallow embedding of the TypeScript source:

* `src/hooks/useEvents.ts` (the Map-based snapshot declaring `MAX_EVENTS`):
  the bounded event cache, its deduplicating insert and the client-side
  filter `filteredEvents`.
* `src/hooks/useProfiles.ts`: the profile cache updated from kind-0 events
  and the debounced subscription flush `updateSubscription`.
* `src/lib/nip66-relay-discovery.ts`: `aggregateRelayReports` and
  `updateDiscoveredRelays`.
* `src/types/app.ts` (the `NostrWatchRelayDiscovery` snapshot):
  `discoverRelays`, `processRelayUrls`, `mergeCachedRelays`,
  `convertPopularRelaysToNIP66`.
* `src/contexts/NostrContext.tsx` (`connect`, `disconnect`),
  `src/hooks/useRelay.ts` (`validateRelayUrl`) and the caller
  `handleConnect` in `src/components/relay-connector.tsx`.

JavaScript data is modelled as follows: strings are `String`, numbers used
as timestamps or kinds are `ℤ` (division-producing confidence scores are
`ℚ`), possibly-undefined values are `Option`, a JS `Map` is an association
list in insertion order, a JS `Set` is a duplicate-free list in insertion
order.  Platform builtins (`JSON.parse`, the WHATWG `URL` parser) that the
source calls are either taken as parameters (`JSON.parse` of payloads) or
modelled just as far as the source observes them (`URL`: scheme validity
and hostname extraction).  JS `Array.prototype.sort` (stable since
ES2019) is modelled with `List.insertionSort`, which is stable.
-/

namespace RelayExplorer

/-! ### JS string and collection primitives -/

/-- Model of `String.prototype.toLowerCase` (the source only lowercases
ASCII hex pubkeys and free text, where per-character lowering agrees). -/
def jsToLower (s : String) : String := String.mk (s.data.map Char.toLower)

/-- Substring test on character lists: does the pattern occur contiguously? -/
def listIsSubstr (pat : List Char) : List Char → Bool
  | [] => pat.isEmpty
  | c :: rest => pat.isPrefixOf (c :: rest) || listIsSubstr pat rest

/-- Model of `String.prototype.includes`: `strIncludes hay needle`. -/
def strIncludes (hay needle : String) : Bool := listIsSubstr needle.data hay.data

/-- Auxiliary recursion for `jsSet`: `seen` collects keys already kept. -/
def jsSetAux (seen : List String) : List String → List String
  | [] => []
  | x :: rest => if x ∈ seen then jsSetAux seen rest else x :: jsSetAux (x :: seen) rest

/-- Model of `new Set(list)` read back as an array: first occurrences kept,
in insertion order. -/
def jsSet (l : List String) : List String := jsSetAux [] l

theorem mem_jsSetAux (l : List String) :
    ∀ (seen : List String) (x : String), x ∈ jsSetAux seen l ↔ x ∈ l ∧ x ∉ seen := by
  induction l with
  | nil => intro seen x; simp [jsSetAux]
  | cons y rest ih =>
    intro seen x
    by_cases hy : y ∈ seen
    · simp only [jsSetAux, if_pos hy, ih, List.mem_cons]
      constructor
      · rintro ⟨hm, hs⟩; exact ⟨Or.inr hm, hs⟩
      · rintro ⟨rfl | hm, hs⟩
        · exact absurd hy hs
        · exact ⟨hm, hs⟩
    · simp only [jsSetAux, if_neg hy, List.mem_cons, ih, not_or]
      constructor
      · rintro (rfl | ⟨hm, hxy, hxs⟩)
        · exact ⟨Or.inl rfl, hy⟩
        · exact ⟨Or.inr hm, hxs⟩
      · rintro ⟨rfl | hm, hxs⟩
        · exact Or.inl rfl
        · by_cases hxy : x = y
          · exact Or.inl hxy
          · exact Or.inr ⟨hm, hxy, hxs⟩

theorem mem_jsSet (l : List String) (x : String) : x ∈ jsSet l ↔ x ∈ l := by
  simp [jsSet, mem_jsSetAux]

theorem nodup_jsSetAux (l : List String) : ∀ seen : List String, (jsSetAux seen l).Nodup := by
  induction l with
  | nil => intro seen; simp [jsSetAux]
  | cons y rest ih =>
    intro seen
    by_cases hy : y ∈ seen
    · rw [show jsSetAux seen (y :: rest) = jsSetAux seen rest from by simp [jsSetAux, hy]]
      exact ih seen
    · rw [show jsSetAux seen (y :: rest) = y :: jsSetAux (y :: seen) rest from by
        simp [jsSetAux, hy]]
      refine List.nodup_cons.mpr ⟨?_, ih (y :: seen)⟩
      intro hmem
      exact ((mem_jsSetAux rest (y :: seen) y).mp hmem).2 (List.mem_cons_self y seen)

theorem nodup_jsSet (l : List String) : (jsSet l).Nodup := nodup_jsSetAux l []

theorem toFinset_jsSet (l : List String) : (jsSet l).toFinset = l.toFinset := by
  ext x; simp [mem_jsSet]

theorem length_jsSet (l : List String) : (jsSet l).length = l.toFinset.card := by
  rw [← List.toFinset_card_of_nodup (nodup_jsSet l), toFinset_jsSet]

/-! ### JS `Map` as an association list (insertion order preserved) -/

/-- Model of `Map.prototype.set`: replace in place if the key is present,
append otherwise. -/
def mapSet {β : Type} : List (String × β) → String → β → List (String × β)
  | [], k, v => [(k, v)]
  | (k₁, v₁) :: rest, k, v =>
    if k₁ = k then (k, v) :: rest else (k₁, v₁) :: mapSet rest k v

/-- Model of `Map.prototype.get` (`undefined` becomes `none`). -/
def mapGet {β : Type} : List (String × β) → String → Option β
  | [], _ => none
  | (k₁, v₁) :: rest, k => if k₁ = k then some v₁ else mapGet rest k

/-- Model of `Map.prototype.has`. -/
def mapHas {β : Type} (m : List (String × β)) (k : String) : Bool :=
  m.any (fun p => p.1 = k)

theorem mapGet_mapSet_self {β : Type} (m : List (String × β)) (k : String) (v : β) :
    mapGet (mapSet m k v) k = some v := by
  induction m with
  | nil => simp [mapSet, mapGet]
  | cons p rest ih =>
    obtain ⟨k₁, v₁⟩ := p
    by_cases h : k₁ = k
    · simp [mapSet, mapGet, h]
    · simp [mapSet, mapGet, h, ih]

theorem mapSet_of_not_has {β : Type} (m : List (String × β)) (k : String) (v : β)
    (h : mapHas m k = false) : mapSet m k v = m ++ [(k, v)] := by
  induction m with
  | nil => simp [mapSet]
  | cons p rest ih =>
    obtain ⟨k₁, v₁⟩ := p
    simp only [mapHas, List.any_cons, Bool.or_eq_false_iff, decide_eq_false_iff_not] at h
    simp [mapSet, h.1, ih h.2]

theorem mapHas_append {β : Type} (m m' : List (String × β)) (k : String) :
    mapHas (m ++ m') k = (mapHas m k || mapHas m' k) := by
  simp [mapHas, List.any_append]

/-! ### Events: `src/hooks/useEvents.ts` (Map-based snapshot)

This snapshot keeps events in `Map<string, NDKEvent>` keyed by `event.id`.
-/

/-- An event as delivered by the NDK subscription.  Fields the source
guards with `|| fallback` or `?.` are `Option`s. -/
structure NDKEvent where
  id : Option String
  pubkey : Option String
  kind : Option ℤ
  created_at : Option ℤ
  content : Option String
  sig : Option String
  tags : List (List String)
deriving DecidableEq

/-- Line 207: `const MAX_EVENTS = 1000`. -/
def MAX_EVENTS : ℕ := 1000

/-- Lines 218-225: the subscription filter sets only a server-side limit,
`ndkFilter.limit = MAX_EVENTS`. -/
def useEventsSubscriptionLimit : ℕ := MAX_EVENTS

/-- The event cache: `Map<string, NDKEvent>` in insertion order. -/
abbrev EventsMap : Type := List (String × NDKEvent)

/-- Cache key of an event: `event.id || ''`. -/
def eventKey (e : NDKEvent) : String := e.id.getD ""

/-- Lines 291-304, the subscription callback: skip if the id is already
present, otherwise copy the map and set the new event.  The snapshot's own
comment records that no size limit is enforced on insert ("if we exceed
MAX_EVENTS, keep going (remove limit enforcement)"). -/
def insertEvent (m : EventsMap) (e : NDKEvent) : EventsMap :=
  if mapHas m (eventKey e) then m else mapSet m (eventKey e) e

/-- A whole arrival sequence of events, delivered in order. -/
def insertEvents (m : EventsMap) (es : List NDKEvent) : EventsMap :=
  es.foldl insertEvent m

/-- Cache size, `eventsMap.size`. -/
def eventsMapSize (m : EventsMap) : ℕ := m.length

theorem insertEvent_of_has (m : EventsMap) (e : NDKEvent)
    (h : mapHas m (eventKey e) = true) : insertEvent m e = m := by
  simp [insertEvent, h]

theorem insertEvent_of_not_has (m : EventsMap) (e : NDKEvent)
    (h : mapHas m (eventKey e) = false) : insertEvent m e = m ++ [(eventKey e, e)] := by
  simp [insertEvent, h, mapSet_of_not_has m _ e h]

theorem mapHas_insertEvent_self (m : EventsMap) (e : NDKEvent) :
    mapHas (insertEvent m e) (eventKey e) = true := by
  by_cases h : mapHas m (eventKey e)
  · simpa [insertEvent_of_has m e h]
  · rw [insertEvent_of_not_has m e (by simpa using h), mapHas_append]
    simp [mapHas]

/-- Date range of an `EventFilter`; the JS `Date` objects are represented
by their epoch milliseconds (`Date.prototype.getTime`). -/
structure DateRange where
  fromDate : Option ℤ
  toDate : Option ℤ
deriving DecidableEq

/-- The `EventFilter` interface from `src/types/app.ts` (all fields
optional). -/
structure EventFilter where
  kinds : Option (List ℤ)
  authors : Option (List String)
  search : Option String
  dateRange : Option DateRange
deriving DecidableEq

/-- Lines 239-271: the per-event predicate inside `filteredEvents`.  Each
early `return false` of the source is one conjunct here; the source
guards `event.kind || 0`, `event.pubkey || ''`,
`Math.floor(date.getTime() / 1000)` and `?.toLowerCase().includes` appear
as `Option.getD`, `Int.fdiv _ 1000` and option matches. -/
def eventMatches (f : EventFilter) (event : NDKEvent) : Bool :=
  (match f.authors with
    | some authors =>
      if authors.length > 0 then authors.contains (event.pubkey.getD "") else true
    | none => true)
  &&
  (match f.kinds with
    | some kinds =>
      if kinds.length > 0 then kinds.contains (event.kind.getD 0) else true
    | none => true)
  &&
  (match f.dateRange with
    | some dr =>
      (match dr.fromDate with
        | some fromMs => decide (Int.fdiv fromMs 1000 ≤ event.created_at.getD 0)
        | none => true)
      &&
      (match dr.toDate with
        | some toMs => decide (event.created_at.getD 0 ≤ Int.fdiv toMs 1000)
        | none => true)
    | none => true)
  &&
  (match f.search with
    | some search =>
      if search = "" then true
      else
        (match event.content with
          | some c => strIncludes (jsToLower c) (jsToLower search)
          | none => false)
        || (match event.pubkey with
          | some pk => strIncludes (jsToLower pk) (jsToLower search)
          | none => false)
    | none => true)

/-- JS truthiness of an optional string: `undefined` and `''` are falsy. -/
def jsFalsyStr : Option String → Bool
  | none => true
  | some s => s == ""

/-- Lines 233-272: `filteredEvents`.  When no filter field is truthy the
source returns the event list unchanged; otherwise it filters with the
conjunction of the provided criteria. -/
def filteredEvents (f : EventFilter) (events : List NDKEvent) : List NDKEvent :=
  if f.authors.isNone && f.kinds.isNone && f.dateRange.isNone && jsFalsyStr f.search then
    events
  else
    events.filter (eventMatches f)

/-- Modelled from the spec wording of `applyFilter`: the conjunction of
author-membership, kind-membership, inclusive creation-timestamp bounds,
and case-insensitive substring search over content or author identifier;
an absent criterion (omitted field, empty membership set, or empty search
string — i.e. no constraint supplied) matches every event. -/
def specMatches (f : EventFilter) (event : NDKEvent) : Bool :=
  (match f.authors with
    | some (a :: rest) => (a :: rest).contains (event.pubkey.getD "")
    | _ => true)
  &&
  (match f.kinds with
    | some (k :: rest) => (k :: rest).contains (event.kind.getD 0)
    | _ => true)
  &&
  (match f.dateRange with
    | some dr =>
      (match dr.fromDate with
        | some fromMs => decide (Int.fdiv fromMs 1000 ≤ event.created_at.getD 0)
        | none => true)
      &&
      (match dr.toDate with
        | some toMs => decide (event.created_at.getD 0 ≤ Int.fdiv toMs 1000)
        | none => true)
    | none => true)
  &&
  (match f.search with
    | some search =>
      if search = "" then true
      else
        (match event.content with
          | some c => strIncludes (jsToLower c) (jsToLower search)
          | none => false)
        || (match event.pubkey with
          | some pk => strIncludes (jsToLower pk) (jsToLower search)
          | none => false)
    | none => true)

theorem eventMatches_eq_specMatches (f : EventFilter) (e : NDKEvent) :
    eventMatches f e = specMatches f e := by
  obtain ⟨kinds, authors, search, dateRange⟩ := f
  rcases authors with _ | (_ | ⟨a, as⟩) <;> rcases kinds with _ | (_ | ⟨k, ks⟩) <;>
    simp [eventMatches, specMatches]

theorem eventMatches_of_absent (f : EventFilter) (e : NDKEvent)
    (hA : f.authors = none) (hK : f.kinds = none) (hD : f.dateRange = none)
    (hS : jsFalsyStr f.search = true) : eventMatches f e = true := by
  rcases hs : f.search with _ | s
  · simp [eventMatches, hA, hK, hD, hs]
  · have hse : s = "" := by simpa [jsFalsyStr, hs] using hS
    simp [eventMatches, hA, hK, hD, hs, hse]

/-! ### Claims C7, C8, C1 -/

/-- C7: inserting an event whose identifier is already present in the
event cache is a no-op — inserting the same event identifier twice leaves
the cache (hence its size and content) identical to inserting it once. -/
theorem C7_insert_idempotent (m : EventsMap) (e₁ e₂ : NDKEvent)
    (h : eventKey e₂ = eventKey e₁) :
    insertEvent (insertEvent m e₁) e₂ = insertEvent m e₁ := by
  apply insertEvent_of_has
  rw [h]
  exact mapHas_insertEvent_self m e₁

/-- Witness for C7 at a concrete cache and a concrete pair of events
sharing the identifier "id1". -/
theorem C7_witness :
    insertEvent (insertEvent ([] : EventsMap)
        ⟨some "id1", none, some 1, some 5, some "x", none, []⟩)
        ⟨some "id1", none, some 1, some 6, some "y", none, []⟩
      = insertEvent ([] : EventsMap)
        ⟨some "id1", none, some 1, some 5, some "x", none, []⟩ :=
  C7_insert_idempotent _ _ _ (by decide)

/-- C8: the filtered view equals exactly the events satisfying the
conjunction of all provided filter criteria (author membership, kind
membership, inclusive timestamp bounds, case-insensitive substring search
over content or author identifier); absent criteria are unconstrained—
never "match nothing". -/
theorem C8_filter_exact (f : EventFilter) (events : List NDKEvent) :
    filteredEvents f events = events.filter (specMatches f) := by
  unfold filteredEvents
  by_cases h :
      (f.authors.isNone && f.kinds.isNone && f.dateRange.isNone && jsFalsyStr f.search) = true
  · rw [if_pos h]
    have h' := h
    simp only [Bool.and_eq_true, Option.isNone_iff_eq_none] at h'
    obtain ⟨⟨⟨hA, hK⟩, hD⟩, hS⟩ := h'
    symm
    apply List.filter_eq_self.mpr
    intro e _
    rw [← eventMatches_eq_specMatches]
    exact eventMatches_of_absent f e hA hK hD hS
  · rw [if_neg h]
    exact List.filter_congr fun e _ => eventMatches_eq_specMatches f e

/-- Event id used for bulk counterexamples: n letters "a". -/
def idOf (n : ℕ) : String := String.mk (List.replicate n 'a')

theorem idOf_injective : Function.Injective idOf := by
  intro a b h
  have h2 := congrArg (fun s => s.data.length) h
  simpa [idOf] using h2

/-- A concrete text-note event with id `idOf n` and timestamp `n`. -/
def mkNatEvent (n : ℕ) : NDKEvent :=
  { id := some (idOf n), pubkey := none, kind := some 1, created_at := some (n : ℤ),
    content := none, sig := none, tags := [] }

theorem insertEvents_length_of_nodup :
    ∀ (es : List NDKEvent) (m : EventsMap),
      (es.map eventKey).Nodup → (∀ e ∈ es, mapHas m (eventKey e) = false) →
      (insertEvents m es).length = m.length + es.length := by
  intro es
  induction es with
  | nil => intro m _ _; simp [insertEvents]
  | cons e rest ih =>
    intro m hnd hfresh
    have hnd' : (∀ x ∈ rest, ¬eventKey x = eventKey e) ∧ (rest.map eventKey).Nodup := by
      simpa using hnd
    have hfe : mapHas m (eventKey e) = false := hfresh e (List.mem_cons_self e rest)
    have hfresh' : ∀ x ∈ rest, mapHas (m ++ [(eventKey e, e)]) (eventKey x) = false := by
      intro x hx
      rw [mapHas_append]
      have h1 : mapHas m (eventKey x) = false := hfresh x (List.mem_cons_of_mem e hx)
      have h2 : mapHas [(eventKey e, e)] (eventKey x) = false := by
        have hne : eventKey e ≠ eventKey x := fun hEq => hnd'.1 x hx hEq.symm
        simp [mapHas, hne]
      simp [h1, h2]
    have hstep : insertEvents m (e :: rest) = insertEvents (m ++ [(eventKey e, e)]) rest := by
      simp [insertEvents, insertEvent_of_not_has m e hfe]
    rw [hstep, ih _ hnd'.2 hfresh']
    simp
    omega

theorem insertEvents_range_length (n : ℕ) :
    (insertEvents [] ((List.range n).map mkNatEvent)).length = n := by
  have hnd : (((List.range n).map mkNatEvent).map eventKey).Nodup := by
    rw [List.map_map]
    exact List.Nodup.map (fun a b hab => idOf_injective hab) (List.nodup_range n)
  have := insertEvents_length_of_nodup ((List.range n).map mkNatEvent) [] hnd
    (fun e _ => rfl)
  simpa using this

/-- Counterexample for C1: inserting 1001 events with pairwise-distinct
identifiers leaves all 1001 in the cache — the size exceeds the configured
bound `MAX_EVENTS = 1000`, and nothing is evicted (this snapshot's insert
path removed limit enforcement). -/
theorem C1_counterexample :
    (insertEvents [] ((List.range 1001).map mkNatEvent)).length = 1001
      ∧ MAX_EVENTS < 1001 :=
  ⟨insertEvents_range_length 1001, by norm_num [MAX_EVENTS]⟩

/-- C1 amended: insert never evicts — every cached entry is retained by
every insert; an insert with a present identifier is a no-op and an insert
with a fresh identifier appends exactly one entry, so the cache size is
unbounded; the configured bound of 1000 events is applied only as the
server-side subscription limit (`ndkFilter.limit = MAX_EVENTS`). -/
theorem C1_insert_unbounded (m : EventsMap) (e : NDKEvent) :
    (∀ x, x ∈ m → x ∈ insertEvent m e)
    ∧ (mapHas m (eventKey e) = true → insertEvent m e = m)
    ∧ (mapHas m (eventKey e) = false → insertEvent m e = m ++ [(eventKey e, e)])
    ∧ useEventsSubscriptionLimit = MAX_EVENTS := by
  refine ⟨?_, insertEvent_of_has m e, insertEvent_of_not_has m e, rfl⟩
  intro x hx
  by_cases h : mapHas m (eventKey e)
  · rwa [insertEvent_of_has m e h]
  · rw [insertEvent_of_not_has m e (by simpa using h)]
    exact List.mem_append_left _ hx

/-- Witness for C1's amended theorem at a concrete cache: re-inserting the
already-present event is a no-op, and the cached entry is retained. -/
theorem C1_witness :
    insertEvent [(eventKey (mkNatEvent 0), mkNatEvent 0)] (mkNatEvent 0)
        = [(eventKey (mkNatEvent 0), mkNatEvent 0)]
      ∧ (eventKey (mkNatEvent 1), mkNatEvent 1)
        ∈ insertEvent [(eventKey (mkNatEvent 1), mkNatEvent 1)] (mkNatEvent 0) :=
  ⟨(C1_insert_unbounded _ (mkNatEvent 0)).2.1 (by decide),
   (C1_insert_unbounded _ (mkNatEvent 0)).1 _ (by decide)⟩

/-! ### Profiles: `src/hooks/useProfiles.ts`

The snapshot cited by the claims keeps `profiles : Map<string,
CachedProfile>` and a `pendingPubkeys : Set<string>`; its subscription
callback (lines 68-90) overwrites the cached record unconditionally with
`lastUpdated: Date.now()`, and its flush `updateSubscription`
(lines 49-98) opens a single subscription whose `authors` array is the
entire pending set.  `JSON.parse` inside `parseProfileData` is a platform
builtin and is taken as a parameter `parse`.
-/

/-- The `ProfileData` interface (all fields optional). -/
structure ProfileData where
  name : Option String
  about : Option String
  picture : Option String
  nip05 : Option String
deriving DecidableEq

/-- The `CachedProfile` interface. -/
structure CachedProfile where
  pubkey : String
  profile : ProfileData
  lastUpdated : ℤ
deriving DecidableEq

/-- State touched by the profile subscription callback. -/
structure ProfilesState where
  profiles : List (String × CachedProfile)
  pendingPubkeys : List String
deriving DecidableEq

/-- Lines 68-90: the subscription callback.  On a kind-0 event with a
truthy pubkey whose content parses, the cache entry for that pubkey is
replaced unconditionally (`lastUpdated` is the processing time `now`) and
the pubkey is removed from the pending set; otherwise nothing changes. -/
def processProfileEvent (parse : String → Option ProfileData) (now : ℤ)
    (st : ProfilesState) (e : NDKEvent) : ProfilesState :=
  if e.kind = some 0 ∧ e.pubkey.getD "" ≠ "" then
    match parse (e.content.getD "") with
    | some profileData =>
      { profiles := mapSet st.profiles (e.pubkey.getD "")
          ⟨e.pubkey.getD "", profileData, now⟩
        pendingPubkeys := st.pendingPubkeys.filter (fun p => p ≠ e.pubkey.getD "") }
    | none => st
  else st

/-- A whole arrival sequence of profile events, processed in order. -/
def processProfileEvents (parse : String → Option ProfileData) (now : ℤ)
    (st : ProfilesState) (es : List NDKEvent) : ProfilesState :=
  es.foldl (processProfileEvent parse now) st

/-- Lines 49-98, `updateSubscription`: the batch requests issued by one
debounced flush.  The guard `!isConnected || !ndk ||
pendingPubkeys.size === 0` issues nothing; otherwise a single
subscription is created whose `authors` list is the entire pending set
(`Array.from(pendingPubkeys)`) — there is no chunking and no staggering
in this snapshot. -/
def updateSubscriptionRequests (isConnected ndkPresent : Bool)
    (pendingPubkeys : List String) : List (List String) :=
  if !isConnected || !ndkPresent || pendingPubkeys.isEmpty then []
  else [pendingPubkeys]

/-! ### Claims C2 and C4 -/

/-- A concrete stand-in for `JSON.parse` on profile payloads: every
content string parses to a profile whose display name is that string. -/
def parseNameOnly : String → Option ProfileData :=
  fun s => some ⟨some s, none, none, none⟩

/-- A kind-0 profile event for "author1" with timestamp 1 and content
"old". -/
def profEventOld : NDKEvent :=
  ⟨some "ev1", some "author1", some 0, some 1, some "old", none, []⟩

/-- A kind-0 profile event for "author1" with timestamp 2 and content
"new". -/
def profEventNew : NDKEvent :=
  ⟨some "ev2", some "author1", some 0, some 2, some "new", none, []⟩

/-- Counterexample for C2: two profile events for "author1" with
timestamps 1 < 2 arrive newest-first; after both are processed the cached
record reflects the content of the OLDER event (timestamp 1), not the
content from timestamp 2 — the handler compares nothing and always
overwrites. -/
theorem C2_counterexample :
    mapGet (processProfileEvents parseNameOnly 0 ⟨[], []⟩
        [profEventNew, profEventOld]).profiles "author1"
        = some ⟨"author1", ⟨some "old", none, none, none⟩, 0⟩
      ∧ (⟨some "old", none, none, none⟩ : ProfileData)
        ≠ ⟨some "new", none, none, none⟩ := by
  constructor
  · decide
  · decide

/-- C2 amended: the cached `ProfileRecord` is last-write-wins by ARRIVAL
order, not by source creation timestamp — after any arrival sequence
ending in a parseable kind-0 event for an author, the cache holds exactly
that last event's parsed content, whatever every event's `created_at`
was. -/
theorem C2_last_arrival_wins (parse : String → Option ProfileData) (now : ℤ)
    (st : ProfilesState) (es : List NDKEvent) (e : NDKEvent) (a : String)
    (pd : ProfileData) (hk : e.kind = some 0) (hp : e.pubkey = some a) (ha : a ≠ "")
    (hparse : parse (e.content.getD "") = some pd) :
    mapGet (processProfileEvents parse now st (es ++ [e])).profiles a
      = some ⟨a, pd, now⟩ := by
  rw [processProfileEvents, List.foldl_append]
  simp only [List.foldl_cons, List.foldl_nil]
  have h1 : processProfileEvent parse now
      (es.foldl (processProfileEvent parse now) st) e =
      { profiles := mapSet (es.foldl (processProfileEvent parse now) st).profiles a
          ⟨a, pd, now⟩
        pendingPubkeys := (es.foldl (processProfileEvent parse now)
          st).pendingPubkeys.filter (fun p => p ≠ a) } := by
    simp [processProfileEvent, hk, hp, hparse, ha]
  rw [h1]
  exact mapGet_mapSet_self _ a (⟨a, pd, now⟩ : CachedProfile)

/-- Witness for C2's amended theorem: with the two concrete events
arriving oldest-first, the cache ends at the later arrival's content. -/
theorem C2_witness :
    mapGet (processProfileEvents parseNameOnly 7 ⟨[], []⟩
        ([profEventOld] ++ [profEventNew])).profiles "author1"
      = some ⟨"author1", ⟨some "new", none, none, none⟩, 7⟩ :=
  C2_last_arrival_wins parseNameOnly 7 (⟨[], []⟩ : ProfilesState) [profEventOld]
    profEventNew "author1" (⟨some "new", none, none, none⟩ : ProfileData)
    rfl rfl (by decide) rfl

/-- Batch of 120 distinct author identifiers. -/
def pending120 : List String := (List.range 120).map idOf

/-- Counterexample for C4: flushing 120 pending authors issues exactly ONE
batch request containing all 120 authors — not the ceil(120/50) = 3
batches of at most 50 the claim requires. -/
theorem C4_counterexample :
    (updateSubscriptionRequests true true pending120).length = 1
      ∧ ((updateSubscriptionRequests true true pending120).headD []).length = 120
      ∧ (120 + 50 - 1) / 50 = 3 := by
  refine ⟨by decide, by decide, by norm_num⟩

/-- C4 amended: when connected, a flush of a nonempty pending set issues
exactly one batch request whose author list is the entire pending set —
no maximum batch size and no staggered scheduling exist in this code. -/
theorem C4_single_batch (pending : List String) (h : pending ≠ []) :
    updateSubscriptionRequests true true pending = [pending] := by
  have hne : pending.isEmpty = false := by simpa using h
  simp [updateSubscriptionRequests, hne]

/-- Witness for C4's amended theorem at a concrete one-author pending
set. -/
theorem C4_witness : updateSubscriptionRequests true true ["p1"] = [["p1"]] :=
  C4_single_batch ["p1"] (by decide)

/-! ### Relay discovery data model

From `src/types/app.ts` (`RelayMetadata`, `NIP66Relay`, `RelayMonitor`)
and `src/lib/relay-data.ts` (`RelayInfo`, `popularRelays`).  `Date`
values are epoch milliseconds (`ℤ`); confidence and reliability scores
are `ℚ`.
-/

/-- Relay NIP-11 metadata, restricted to the fields the discovery code
reads (`name`, `description`, `supported_nips`). -/
structure RelayMetadata where
  name : Option String
  description : Option String
  supported_nips : Option (List ℤ)
deriving DecidableEq

/-- The status union `'online' | 'offline' | 'unknown'`. -/
inductive RelayStatus where
  | online
  | offline
  | unknown
deriving DecidableEq

/-- The `RelayMonitor` interface. -/
structure RelayMonitor where
  pubkey : String
  lastSeen : ℤ
  reliability : ℚ
  frequency : Option ℤ
  timeout : Option ℤ
deriving DecidableEq

/-- The `NIP66Relay` interface. -/
structure NIP66Relay where
  url : String
  name : Option String
  description : Option String
  status : RelayStatus
  lastChecked : ℤ
  nips : Option (List ℤ)
  monitors : List RelayMonitor
  confidence : ℚ
  metadata : Option RelayMetadata
  geographic : Option String
deriving DecidableEq

/-- The `RelayInfo` interface from `src/lib/relay-data.ts`. -/
structure RelayInfo where
  value : String
  label : String
  description : Option String
deriving DecidableEq

/-- The hand-maintained `popularRelays` list from
`src/lib/relay-data.ts`. -/
def popularRelays : List RelayInfo :=
  [⟨"wss://relay.damus.io", "Damus Relay", some "Popular general-purpose relay"⟩,
   ⟨"wss://nos.lol", "nos.lol", some "High-performance relay"⟩,
   ⟨"wss://relay.primal.net", "Primal", some "Primal relay service"⟩,
   ⟨"wss://nostr.mom", "nostr.mom", some "Community relay"⟩,
   ⟨"wss://relay.snort.social", "Snort Social", some "Snort client relay"⟩,
   ⟨"wss://offchain.pub", "Offchain Pub", some "Bitcoin-focused relay"⟩,
   ⟨"wss://nostr.bitcoiner.social", "Bitcoiner Social", some "Bitcoin community relay"⟩,
   ⟨"wss://nostr.oxtr.dev", "OXTR Dev", some "Development-focused relay"⟩,
   ⟨"wss://relay.nostr.net", "nostr.net", some "General-purpose relay"⟩,
   ⟨"wss://purplepag.es", "Purple Pages", some "Community relay"⟩]

/-- Lines 180-192 of the `NostrWatchRelayDiscovery` snapshot in
`src/types/app.ts`: `convertPopularRelaysToNIP66`, curated entries at
baseline confidence 0.9, status `'unknown'`, `lastChecked = new Date()`
(the parameter `now`). -/
def convertPopularRelaysToNIP66NW (now : ℤ) : List NIP66Relay :=
  popularRelays.map fun relay =>
    { url := relay.value, name := some relay.label, description := relay.description,
      status := .unknown, lastChecked := now, nips := none, monitors := [],
      confidence := 9/10, metadata := none, geographic := none }

/-- Lines 293-305 of `src/lib/nip66-relay-discovery.ts`: the same
conversion inside `NIP66RelayDiscovery`, at baseline confidence 0.5. -/
def convertPopularRelaysToNIP66Disc (now : ℤ) : List NIP66Relay :=
  popularRelays.map fun relay =>
    { url := relay.value, name := some relay.label, description := relay.description,
      status := .unknown, lastChecked := now, nips := none, monitors := [],
      confidence := 1/2, metadata := none, geographic := none }

/-- The JS comparator `(a, b) => b.confidence - a.confidence`: descending
confidence order. -/
def byConfidenceDesc (a b : NIP66Relay) : Prop := b.confidence ≤ a.confidence

instance : DecidableRel byConfidenceDesc :=
  fun a b => inferInstanceAs (Decidable (b.confidence ≤ a.confidence))

instance : IsTotal NIP66Relay byConfidenceDesc :=
  ⟨fun a b => le_total b.confidence a.confidence⟩

instance : IsTrans NIP66Relay byConfidenceDesc :=
  ⟨fun _ _ _ h1 h2 => le_trans h2 h1⟩

/-- The JS comparator `(a, b) => (b.created_at || 0) - (a.created_at || 0)`:
newest-first report order. -/
def byCreatedDesc (a b : NDKEvent) : Prop :=
  b.created_at.getD 0 ≤ a.created_at.getD 0

instance : DecidableRel byCreatedDesc :=
  fun a b => inferInstanceAs (Decidable (b.created_at.getD 0 ≤ a.created_at.getD 0))

/-! ### Report aggregation: `aggregateRelayReports`
(`src/lib/nip66-relay-discovery.ts`, lines 214-276)

`JSON.parse` of the latest report's content is the parameter `parseMeta`;
`monitorManager.isMonitorTrusted` is the parameter `trusted`.  The JS
in-place `reports.sort(...)` means every later read of `reports` sees the
sorted array; the embedding therefore reads `sortReportsByRecency
reports` wherever the source reads the post-sort array.
-/

/-- Line 218: `reports.sort((a, b) => b.created_at - a.created_at)`. -/
def sortReportsByRecency (reports : List NDKEvent) : List NDKEvent :=
  List.insertionSort byCreatedDesc reports

/-- Lines 222-224: a report counts as recent when
`Date.now() / 1000 - (r.created_at || 0) < 24 * 60 * 60` (the JS division
is exact on ℚ). -/
def isRecentReport (nowMs : ℚ) (r : NDKEvent) : Bool :=
  decide (nowMs / 1000 - ((r.created_at.getD 0 : ℤ) : ℚ) < 24 * 60 * 60)

/-- Line 227 and 247: `new Set(reports.map(r => r.pubkey))` read back in
insertion order. -/
def distinctReporters (reports : List NDKEvent) : List String :=
  jsSet (reports.map fun r => r.pubkey.getD "")

/-- Lines 222-230: the confidence computation —
`onlineReports / Math.max(totalMonitors, 3)` when any reporter exists,
otherwise 0.  `onlineReports` is the count of recent reports in the
sorted array and `totalMonitors` the number of distinct reporter
pubkeys. -/
def aggregateConfidence (nowMs : ℚ) (reports : List NDKEvent) : ℚ :=
  if 0 < (distinctReporters (sortReportsByRecency reports)).length then
    (((sortReportsByRecency reports).filter (isRecentReport nowMs)).length : ℚ)
      / ((max (distinctReporters (sortReportsByRecency reports)).length 3 : ℕ) : ℚ)
  else 0

/-- Line 266: `confidence > 0.5 ? 'online' : (confidence > 0.2 ?
'unknown' : 'offline')`. -/
def aggregateStatus (confidence : ℚ) : RelayStatus :=
  if 1/2 < confidence then .online
  else if 1/5 < confidence then .unknown
  else .offline

/-- Lines 214-276: `aggregateRelayReports`.  Returns `null` on an empty
report list; otherwise builds the candidate from the sorted reports.  The
`match` on the sorted list names `latestReport` (`sortedReports[0]`); its
`[]` branch is unreachable because sorting preserves length. -/
def aggregateRelayReports (parseMeta : String → Option RelayMetadata)
    (trusted : String → Bool) (nowMs : ℚ) (relayUrl : String)
    (reports : List NDKEvent) : Option NIP66Relay :=
  if reports.isEmpty then none
  else
    match sortReportsByRecency reports with
    | [] => none
    | latestReport :: restSorted =>
      let sortedReports := latestReport :: restSorted
      let confidence := aggregateConfidence nowMs reports
      let metadata : Option RelayMetadata :=
        match latestReport.content with
        | some c => if c ≠ "" then parseMeta c else none
        | none => none
      let monitors : List RelayMonitor :=
        (distinctReporters sortedReports).map fun pk =>
          let monitorReports := sortedReports.filter fun r => r.pubkey.getD "" == pk
          { pubkey := pk
            lastSeen := ((monitorReports.head?.map fun r => r.created_at.getD 0).getD 0) * 1000
            reliability := if trusted pk then 4/5 else 1/2
            frequency := none
            timeout := none }
      some
        { url := relayUrl
          name := metadata.bind (·.name)
          description := metadata.bind (·.description)
          status := aggregateStatus confidence
          lastChecked := latestReport.created_at.getD 0 * 1000
          nips := metadata.bind (·.supported_nips)
          monitors := monitors
          confidence := confidence
          metadata := metadata
          geographic := none }

theorem aggregate_some_fields (parseMeta : String → Option RelayMetadata)
    (trusted : String → Bool) (nowMs : ℚ) (relayUrl : String)
    (reports : List NDKEvent) (r : NIP66Relay)
    (h : aggregateRelayReports parseMeta trusted nowMs relayUrl reports = some r) :
    r.confidence = aggregateConfidence nowMs reports
    ∧ r.status = aggregateStatus (aggregateConfidence nowMs reports)
    ∧ reports.isEmpty = false
    ∧ r.url = relayUrl := by
  unfold aggregateRelayReports at h
  cases hE : reports.isEmpty
  · rw [hE] at h
    simp only [Bool.false_eq_true, if_false] at h
    cases hs : sortReportsByRecency reports with
    | nil => rw [hs] at h; cases h
    | cons latest rest =>
      rw [hs] at h
      simp only [Option.some.injEq] at h
      subst h
      exact ⟨rfl, rfl, rfl, rfl⟩
  · rw [hE] at h
    simp at h

theorem aggregate_status_map (parseMeta : String → Option RelayMetadata)
    (trusted : String → Bool) (nowMs : ℚ) (relayUrl : String)
    (reports : List NDKEvent) :
    Option.map NIP66Relay.status
        (aggregateRelayReports parseMeta trusted nowMs relayUrl reports)
      = if reports.isEmpty then none
        else some (aggregateStatus (aggregateConfidence nowMs reports)) := by
  unfold aggregateRelayReports
  cases hE : reports.isEmpty
  · simp only [Bool.false_eq_true, if_false]
    cases hs : sortReportsByRecency reports with
    | nil =>
      exfalso
      have hlen := (List.perm_insertionSort byCreatedDesc reports).length_eq
      rw [show List.insertionSort byCreatedDesc reports = [] from hs] at hlen
      have : reports = [] := List.length_eq_zero.mp hlen.symm
      rw [this] at hE
      cases hE
    | cons latest rest => simp
  · simp

theorem aggregateConfidence_nonneg (nowMs : ℚ) (reports : List NDKEvent) :
    0 ≤ aggregateConfidence nowMs reports := by
  unfold aggregateConfidence
  split_ifs with h
  · apply div_nonneg
    · exact_mod_cast Nat.zero_le _
    · exact_mod_cast Nat.zero_le _
  · exact le_refl 0

theorem length_distinctReporters_eq_card (l : List NDKEvent) :
    (distinctReporters l).length = (l.map fun r => r.pubkey.getD "").toFinset.card :=
  length_jsSet _

theorem aggregateConfidence_le (nowMs : ℚ) (reports : List NDKEvent) :
    aggregateConfidence nowMs reports
      ≤ (reports.length : ℚ)
          / ((max (distinctReporters reports).length 3 : ℕ) : ℚ) := by
  have hperm : (sortReportsByRecency reports).Perm reports :=
    List.perm_insertionSort byCreatedDesc reports
  have hR : (distinctReporters (sortReportsByRecency reports)).length
      = (distinctReporters reports).length := by
    rw [length_distinctReporters_eq_card, length_distinctReporters_eq_card,
      List.toFinset_eq_of_perm _ _ (hperm.map fun r => r.pubkey.getD "")]
  have hden : (0 : ℚ) < ((max (distinctReporters reports).length 3 : ℕ) : ℚ) := by
    have h3 : (3 : ℕ) ≤ max (distinctReporters reports).length 3 := le_max_right _ 3
    exact_mod_cast lt_of_lt_of_le (by norm_num : (0 : ℕ) < 3) h3
  have hnum : ((sortReportsByRecency reports).filter (isRecentReport nowMs)).length
      ≤ reports.length := by
    calc ((sortReportsByRecency reports).filter (isRecentReport nowMs)).length
        ≤ (sortReportsByRecency reports).length := List.length_filter_le _ _
      _ = reports.length := hperm.length_eq
  unfold aggregateConfidence
  split_ifs with h
  · rw [hR]
    exact (div_le_div_iff_of_pos_right hden).mpr (by exact_mod_cast hnum)
  · exact div_nonneg (by exact_mod_cast Nat.zero_le _) (le_of_lt hden)

theorem aggregateStatus_iff (c : ℚ) :
    (aggregateStatus c = .online ↔ 1/2 < c)
    ∧ (aggregateStatus c = .unknown ↔ (1/5 < c ∧ c ≤ 1/2))
    ∧ (aggregateStatus c = .offline ↔ c ≤ 1/5) := by
  unfold aggregateStatus
  split_ifs with h1 h2
  · refine ⟨⟨fun _ => h1, fun _ => rfl⟩, ?_, ?_⟩
    · constructor
      · intro hcon; exact absurd hcon (by decide)
      · rintro ⟨-, hle⟩; exact absurd h1 (not_lt.mpr hle)
    · constructor
      · intro hcon; exact absurd hcon (by decide)
      · intro hle; exact absurd h1 (not_lt.mpr (hle.trans (by norm_num)))
  · refine ⟨?_, ⟨fun _ => ⟨h2, not_lt.mp h1⟩, fun _ => rfl⟩, ?_⟩
    · exact ⟨fun hcon => absurd hcon (by decide), fun hlt => absurd hlt h1⟩
    · exact ⟨fun hcon => absurd hcon (by decide), fun hle => absurd h2 (not_lt.mpr hle)⟩
  · refine ⟨?_, ?_, ⟨fun _ => not_lt.mp h2, fun _ => rfl⟩⟩
    · exact ⟨fun hcon => absurd hcon (by decide), fun hlt => absurd hlt h1⟩
    · exact ⟨fun hcon => absurd hcon (by decide), fun hand => absurd hand.1 h2⟩

theorem aggregateConfidence_congr (nowMs : ℚ) (reports reports' : List NDKEvent)
    (hp : reports'.map NDKEvent.pubkey = reports.map NDKEvent.pubkey)
    (hc : reports'.map NDKEvent.created_at = reports.map NDKEvent.created_at) :
    aggregateConfidence nowMs reports' = aggregateConfidence nowMs reports := by
  have e1 : ∀ l : List NDKEvent,
      ((sortReportsByRecency l).filter (isRecentReport nowMs)).length
        = List.countP
            (fun t : Option ℤ => decide (nowMs / 1000 - ((t.getD 0 : ℤ) : ℚ) < 24 * 60 * 60))
            (l.map NDKEvent.created_at) := by
    intro l
    have hperm : (sortReportsByRecency l).Perm l := List.perm_insertionSort byCreatedDesc l
    rw [← List.countP_eq_length_filter, List.Perm.countP_eq _ hperm, List.countP_map]
    rfl
  have e2 : ∀ l : List NDKEvent,
      (distinctReporters (sortReportsByRecency l)).length
        = ((l.map NDKEvent.pubkey).map fun o => o.getD "").toFinset.card := by
    intro l
    have hperm : (sortReportsByRecency l).Perm l := List.perm_insertionSort byCreatedDesc l
    rw [length_distinctReporters_eq_card,
      List.toFinset_eq_of_perm _ _ (hperm.map fun r => r.pubkey.getD ""), List.map_map]
    rfl
  unfold aggregateConfidence
  rw [e1, e1, e2, e2, hp, hc]

/-! ### Claims C3 and C10 -/

/-- Four discovery reports about one relay, all from the single reporter
"monitor1", all inside the 24-hour window at `nowMs = 86400000`. -/
def sameReporterReports : List NDKEvent :=
  [⟨some "r1", some "monitor1", some 30166, some 86400, none, none, []⟩,
   ⟨some "r2", some "monitor1", some 30166, some 86400, none, none, []⟩,
   ⟨some "r3", some "monitor1", some 30166, some 86400, none, none, []⟩,
   ⟨some "r4", some "monitor1", some 30166, some 86400, none, none, []⟩]

/-- The candidate `aggregateRelayReports` builds from
`sameReporterReports` (no metadata, untrusted reporter). -/
def relayC3 : NIP66Relay :=
  { url := "wss://r.example", name := none, description := none,
    status := .online, lastChecked := 86400000, nips := none,
    monitors := [⟨"monitor1", 86400000, 1/2, none, none⟩],
    confidence := 4/3, metadata := none, geographic := none }

theorem aggregateConfidence_sameReporter :
    aggregateConfidence 86400000 sameReporterReports = 4/3 := by
  have hsort : sortReportsByRecency sameReporterReports = sameReporterReports := by decide
  have hfilter : sameReporterReports.filter (isRecentReport 86400000)
      = sameReporterReports := by
    apply List.filter_eq_self.mpr
    intro e he
    simp only [sameReporterReports, List.mem_cons, List.not_mem_nil, or_false] at he
    rcases he with rfl | rfl | rfl | rfl <;>
      · simp only [isRecentReport, Option.getD_some, decide_eq_true_eq]
        norm_num
  have hdistinct : distinctReporters sameReporterReports = ["monitor1"] := by decide
  unfold aggregateConfidence
  rw [hsort, hfilter, hdistinct]
  rw [show sameReporterReports.length = 4 from by decide]
  rw [show (["monitor1"] : List String).length = 1 from by decide]
  rw [if_pos (by norm_num)]
  rw [show max 1 3 = 3 from by decide]
  norm_num

theorem aggregate_sameReporter :
    aggregateRelayReports (fun _ => none) (fun _ => false) 86400000
      "wss://r.example" sameReporterReports = some relayC3 := by
  have hstep : aggregateRelayReports (fun _ => none) (fun _ => false) 86400000
      "wss://r.example" sameReporterReports
      = some { url := "wss://r.example", name := none, description := none,
               status := aggregateStatus (aggregateConfidence 86400000 sameReporterReports),
               lastChecked := 86400000, nips := none,
               monitors := [⟨"monitor1", 86400000, 1/2, none, none⟩],
               confidence := aggregateConfidence 86400000 sameReporterReports,
               metadata := none, geographic := none } := rfl
  rw [hstep, aggregateConfidence_sameReporter,
    show aggregateStatus ((4 : ℚ)/3) = RelayStatus.online from by
      unfold aggregateStatus; rw [if_pos (by norm_num)]]
  rfl

/-- Counterexample for C3: four recent reports from R = 1 distinct
reporter yield confidence 4/3, which exceeds the claimed bound
min(1, reportCount/max(R,3)) = min(1, 4/3) = 1 — the computed confidence
is not clamped to 1. -/
theorem C3_counterexample :
    aggregateRelayReports (fun _ => none) (fun _ => false) 86400000
        "wss://r.example" sameReporterReports = some relayC3
      ∧ (distinctReporters sameReporterReports).length = 1
      ∧ relayC3.confidence = 4/3
      ∧ ¬(relayC3.confidence ≤ min 1 ((4 : ℚ) / max (1 : ℚ) 3)) := by
  refine ⟨aggregate_sameReporter, by decide, rfl, ?_⟩
  rw [show relayC3.confidence = 4/3 from rfl,
    show max (1 : ℚ) 3 = 3 from max_eq_right (by norm_num),
    show min (1 : ℚ) ((4 : ℚ)/3) = 1 from min_eq_left (by norm_num)]
  norm_num

/-- C3 amended: for every candidate built by report aggregation the
confidence equals (recent report count)/max(R,3) with R the number of
distinct reporters over the candidate's reports, hence lies in
[0, reportCount/max(R,3)]; it is NOT additionally clamped to 1 (see the
counterexample). -/
theorem C3_confidence_bounds (parseMeta : String → Option RelayMetadata)
    (trusted : String → Bool) (nowMs : ℚ) (relayUrl : String)
    (reports : List NDKEvent) (r : NIP66Relay)
    (h : aggregateRelayReports parseMeta trusted nowMs relayUrl reports = some r) :
    0 ≤ r.confidence
      ∧ r.confidence
        ≤ (reports.length : ℚ)
            / ((max (distinctReporters reports).length 3 : ℕ) : ℚ) := by
  obtain ⟨hconf, -, -, -⟩ := aggregate_some_fields parseMeta trusted nowMs relayUrl reports r h
  rw [hconf]
  exact ⟨aggregateConfidence_nonneg nowMs reports, aggregateConfidence_le nowMs reports⟩

/-- Witness for C3's amended theorem at the concrete report list. -/
theorem C3_witness :
    0 ≤ relayC3.confidence
      ∧ relayC3.confidence
        ≤ (sameReporterReports.length : ℚ)
            / ((max (distinctReporters sameReporterReports).length 3 : ℕ) : ℚ) :=
  C3_confidence_bounds (fun _ => none) (fun _ => false) 86400000
    "wss://r.example" sameReporterReports relayC3 aggregate_sameReporter

/-- C10: a discovered candidate's status is a pure threshold function of
its confidence — online exactly when confidence > 0.5, unknown exactly
when 0.2 < confidence ≤ 0.5, offline otherwise — and the report payloads
(content and every field other than reporter pubkey and creation
timestamp, and even the metadata parser) never influence the status. -/
theorem C10_status_from_confidence (parseMeta : String → Option RelayMetadata)
    (trusted : String → Bool) (nowMs : ℚ) (relayUrl : String)
    (reports : List NDKEvent) (r : NIP66Relay)
    (h : aggregateRelayReports parseMeta trusted nowMs relayUrl reports = some r) :
    ((r.status = .online ↔ 1/2 < r.confidence)
      ∧ (r.status = .unknown ↔ (1/5 < r.confidence ∧ r.confidence ≤ 1/2))
      ∧ (r.status = .offline ↔ r.confidence ≤ 1/5))
    ∧ ∀ (parseMeta' : String → Option RelayMetadata) (reports' : List NDKEvent),
        reports'.map NDKEvent.pubkey = reports.map NDKEvent.pubkey →
        reports'.map NDKEvent.created_at = reports.map NDKEvent.created_at →
        Option.map NIP66Relay.status
            (aggregateRelayReports parseMeta' trusted nowMs relayUrl reports')
          = some r.status := by
  obtain ⟨hconf, hstat, hne, -⟩ :=
    aggregate_some_fields parseMeta trusted nowMs relayUrl reports r h
  constructor
  · rw [hstat, hconf]
    exact aggregateStatus_iff (aggregateConfidence nowMs reports)
  · intro parseMeta' reports' hp hc
    have hlen : reports'.length = reports.length := by
      have := congrArg List.length hp
      simpa using this
    have hne' : reports'.isEmpty = false := by
      cases hcons : reports' with
      | nil =>
        exfalso
        rw [hcons, List.length_nil] at hlen
        have : reports = [] := List.length_eq_zero.mp hlen.symm
        rw [this] at hne
        cases hne
      | cons a t => rfl
    rw [aggregate_status_map, hne']
    simp only [Bool.false_eq_true, if_false]
    rw [aggregateConfidence_congr nowMs reports reports' hp hc, hstat]

/-- Witness for C10 at the concrete report list: the candidate's status
is online exactly because its confidence 4/3 exceeds 0.5. -/
theorem C10_witness :
    relayC3.status = RelayStatus.online ↔ 1/2 < relayC3.confidence :=
  (C10_status_from_confidence (fun _ => none) (fun _ => false) 86400000
    "wss://r.example" sameReporterReports relayC3 aggregate_sameReporter).1.1

/-! ### URL validation model

Used by `validateRelayUrl` (`src/hooks/useRelay.ts` lines 42-49),
`isValidRelayUrl` (`src/types/app.ts` lines 171-178 and
`src/lib/nip66-relay-discovery.ts` lines 284-291) and `extractRelayName`
(`src/types/app.ts` lines 148-169).  `new URL(...)` is a platform
builtin; this models as much of the WHATWG parser as those call sites
observe: parse succeeds iff the string has a wellformed scheme followed
by ":" and, for the special web-socket/http schemes, a nonempty host;
`protocol` is the lowercased scheme with ":", `hostname` the lowercased
host. -/
def jsUrlProtocol (url : String) : Option String :=
  match url.data.takeWhile (fun c => c != ':') with
  | [] => none
  | c :: cs =>
    if (c :: cs).length = url.data.length then none
    else if c.isAlpha
        && cs.all (fun d => d.isAlphanum || d == '+' || d == '-' || d == '.') then
      let schemeL := (c :: cs).map Char.toLower
      let rest := url.data.drop ((c :: cs).length + 1)
      if (schemeL == "ws".data || schemeL == "wss".data
            || schemeL == "http".data || schemeL == "https".data)
          && ((rest.dropWhile (fun d => d == '/')).takeWhile
              (fun d => d != '/' && d != ':' && d != '?' && d != '#')).isEmpty then
        none
      else some (String.mk (schemeL ++ [':']))
    else none

/-- Hostname component of a parseable URL (see `jsUrlProtocol`). -/
def jsUrlHostname (url : String) : Option String :=
  match jsUrlProtocol url with
  | none => none
  | some _ =>
    some (String.mk
      ((((url.data.drop ((url.data.takeWhile (fun c => c != ':')).length + 1)).dropWhile
          (fun d => d == '/')).takeWhile
          (fun d => d != '/' && d != ':' && d != '?' && d != '#')).map Char.toLower))

/-- `src/hooks/useRelay.ts` lines 42-49 (identical logic at
`isValidRelayUrl` in both discovery classes): `new URL(url)` must parse
and its protocol must be `ws:` or `wss:`. -/
def validateRelayUrl (url : String) : Bool :=
  match jsUrlProtocol url with
  | some p => p == "ws:" || p == "wss:"
  | none => false

theorem validateRelayUrl_wss_damus : validateRelayUrl "wss://relay.damus.io" = true := by
  decide

/-! ### NostrWatch discovery: `src/types/app.ts` snapshot -/

/-- `hostname.charAt(0).toUpperCase() + hostname.slice(1)`. -/
def capitalizeFirst (s : String) : String :=
  match s.data with
  | [] => s
  | c :: cs => String.mk (Char.toUpper c :: cs)

/-- Lines 148-169: `extractRelayName` — hostname cleaned of `www.` and
`relay.` prefixes, capitalized; on parse failure, strip a leading
`wss://`/`ws://` and one trailing slash. -/
def extractRelayName (url : String) : String :=
  match jsUrlHostname url with
  | some hostname0 =>
    let hostname1 := if hostname0.startsWith "www." then hostname0.drop 4 else hostname0
    let hostname2 := if hostname1.startsWith "relay." then hostname1.drop 6 else hostname1
    capitalizeFirst hostname2
  | none =>
    let s1 := if url.startsWith "wss://" then url.drop 6
      else if url.startsWith "ws://" then url.drop 5
      else url
    if s1.endsWith "/" then s1.dropRight 1 else s1

/-- Lines 131-146: `createNIP66RelayFromUrl` — online, confidence 0.8. -/
def createNIP66RelayFromUrl (now : ℤ) (url : String) : NIP66Relay :=
  { url := url, name := some (extractRelayName url),
    description := some "Online relay from nostr.watch",
    status := .online, lastChecked := now, nips := none, monitors := [],
    confidence := 4/5, metadata := none, geographic := none }

/-- Lines 119-129: `processRelayUrls` — rebuild the cache from the
fetched list, keeping only valid relay URLs. -/
def processRelayUrls (now : ℤ) (relayUrls : List String) : List (String × NIP66Relay) :=
  relayUrls.foldl
    (fun cache url =>
      if validateRelayUrl url then mapSet cache url (createNIP66RelayFromUrl now url)
      else cache)
    []

/-- Lines 199-201 of `mergeCachedRelays`: the discovered entries — cache
values whose address is not curated, sorted by descending confidence. -/
def discoveredSortedNW (now : ℤ) (cacheValues : List NIP66Relay) : List NIP66Relay :=
  List.insertionSort byConfidenceDesc
    (cacheValues.filter fun relay =>
      !(((convertPopularRelaysToNIP66NW now).map NIP66Relay.url).contains relay.url))

/-- Lines 194-205: `mergeCachedRelays` — curated entries first, then the
sorted discovered entries. -/
def mergeCachedRelays (now : ℤ) (cacheValues : List NIP66Relay) : List NIP66Relay :=
  convertPopularRelaysToNIP66NW now ++ discoveredSortedNW now cacheValues

/-- The `RelayDiscoveryState` record. -/
structure RelayDiscoveryState where
  relays : List NIP66Relay
  monitors : List RelayMonitor
  loading : Bool
  error : Option String
  lastUpdated : ℤ
deriving DecidableEq

/-- Line 42: `CACHE_DURATION = 1000 * 60 * 30`. -/
def NW_CACHE_DURATION : ℤ := 1000 * 60 * 30

/-- Lines 49-117: `discoverRelays` of `NostrWatchRelayDiscovery`.  The
state starts as the curated list with `loading: true, error: null`; a
fresh nonempty cache short-circuits the network; otherwise the
nostr.watch fetch result (`fetchResult`, an `Except` since the source
`throw`s on a non-OK response into its own `catch`) either rebuilds the
cache or — on any failure — leaves the curated relays, sets
`loading = false`, and deliberately does NOT set `error` (graceful
degradation); no exception escapes (the model is a total function, as
the source wraps everything in try/catch). -/
def discoverRelaysNW (now lastFetchTime : ℤ) (cache : List (String × NIP66Relay))
    (fetchResult : Except String (List String)) : RelayDiscoveryState :=
  if 0 < cache.length ∧ now - lastFetchTime < NW_CACHE_DURATION then
    { relays := mergeCachedRelays now (cache.map Prod.snd), monitors := [],
      loading := false, error := none, lastUpdated := lastFetchTime }
  else
    match fetchResult with
    | .error _ =>
      { relays := convertPopularRelaysToNIP66NW now, monitors := [],
        loading := false, error := none, lastUpdated := now }
    | .ok relayUrls =>
      { relays := mergeCachedRelays now ((processRelayUrls now relayUrls).map Prod.snd),
        monitors := [], loading := false, error := none, lastUpdated := now }

/-! ### Progressive merge: `updateDiscoveredRelays`
(`src/lib/nip66-relay-discovery.ts`, lines 178-212) -/

/-- Lines 189-201: the discovered entries — for each reported address not
in the curated list, the aggregated candidate if its confidence passes
the 0.2 surfacing threshold, sorted by descending confidence. -/
def discoveredSortedDisc (parseMeta : String → Option RelayMetadata)
    (trusted : String → Bool) (nowMs : ℚ) (now : ℤ)
    (relayReports : List (String × List NDKEvent)) : List NIP66Relay :=
  List.insertionSort byConfidenceDesc
    (relayReports.filterMap fun ur =>
      if ((convertPopularRelaysToNIP66Disc now).map NIP66Relay.url).contains ur.1 then
        none
      else
        match aggregateRelayReports parseMeta trusted nowMs ur.1 ur.2 with
        | some relay => if 1/5 < relay.confidence then some relay else none
        | none => none)

/-- Lines 178-212: `updateDiscoveredRelays` — the merged catalog
(`state.relays`): curated entries first, then the sorted discovered
entries. -/
def updateDiscoveredRelays (parseMeta : String → Option RelayMetadata)
    (trusted : String → Bool) (nowMs : ℚ) (now : ℤ)
    (relayReports : List (String × List NDKEvent)) : List NIP66Relay :=
  convertPopularRelaysToNIP66Disc now
    ++ discoveredSortedDisc parseMeta trusted nowMs now relayReports

/-! ### Claim C9 -/

theorem mem_discoveredSortedNW (now : ℤ) (cacheValues : List NIP66Relay)
    (d : NIP66Relay) (hd : d ∈ discoveredSortedNW now cacheValues) :
    d.url ∉ (convertPopularRelaysToNIP66NW now).map NIP66Relay.url := by
  have hperm : (discoveredSortedNW now cacheValues).Perm
      (cacheValues.filter fun relay =>
        !(((convertPopularRelaysToNIP66NW now).map NIP66Relay.url).contains relay.url)) :=
    List.perm_insertionSort byConfidenceDesc _
  have hc : (((convertPopularRelaysToNIP66NW now).map NIP66Relay.url).contains d.url)
      = false := by
    have h2 := (List.mem_filter.mp (hperm.mem_iff.mp hd)).2
    simpa using h2
  intro hm
  simp only [List.contains, List.elem_eq_mem, decide_eq_false_iff_not] at hc
  exact hc hm

theorem mem_discoveredSortedDisc (parseMeta : String → Option RelayMetadata)
    (trusted : String → Bool) (nowMs : ℚ) (now : ℤ)
    (relayReports : List (String × List NDKEvent)) (d : NIP66Relay)
    (hd : d ∈ discoveredSortedDisc parseMeta trusted nowMs now relayReports) :
    d.url ∉ (convertPopularRelaysToNIP66Disc now).map NIP66Relay.url
      ∧ 1/5 < d.confidence := by
  have hperm : (discoveredSortedDisc parseMeta trusted nowMs now relayReports).Perm
      (relayReports.filterMap fun ur =>
        if ((convertPopularRelaysToNIP66Disc now).map NIP66Relay.url).contains ur.1 then
          none
        else
          match aggregateRelayReports parseMeta trusted nowMs ur.1 ur.2 with
          | some relay => if 1/5 < relay.confidence then some relay else none
          | none => none) :=
    List.perm_insertionSort byConfidenceDesc _
  obtain ⟨⟨u, reps⟩, hmem, heq⟩ := List.mem_filterMap.mp (hperm.mem_iff.mp hd)
  dsimp only at heq
  by_cases hcont :
      (((convertPopularRelaysToNIP66Disc now).map NIP66Relay.url).contains u) = true
  · rw [if_pos hcont] at heq; cases heq
  · rw [if_neg hcont] at heq
    cases hagg : aggregateRelayReports parseMeta trusted nowMs u reps with
    | none => rw [hagg] at heq; cases heq
    | some relay =>
      rw [hagg] at heq
      dsimp only at heq
      by_cases hth : (1 : ℚ)/5 < relay.confidence
      · rw [if_pos hth] at heq
        obtain rfl : relay = d := Option.some.inj heq
        obtain ⟨-, -, -, hurl⟩ :=
          aggregate_some_fields parseMeta trusted nowMs u reps relay hagg
        refine ⟨?_, hth⟩
        rw [hurl]
        have hcf : (((convertPopularRelaysToNIP66Disc now).map NIP66Relay.url).contains u)
            = false := by
          cases hv : ((convertPopularRelaysToNIP66Disc now).map NIP66Relay.url).contains u
          · rfl
          · exact absurd hv hcont
        simp only [List.contains, List.elem_eq_mem, decide_eq_false_iff_not] at hcf
        exact hcf
      · rw [if_neg hth] at heq; cases heq

/-- C9: in both merge paths (`mergeCachedRelays` of the NostrWatch class
and `updateDiscoveredRelays` of the NIP-66 class), every curated entry is
present in the merged catalog and the curated block comes first
unmodified (so a discovered entry can never replace a curated address);
discovered entries — only those whose address is not curated — are
appended after the curated entries, sorted in descending order of
confidence. -/
theorem C9_merge_curated_wins (now : ℤ) (cacheValues : List NIP66Relay)
    (parseMeta : String → Option RelayMetadata) (trusted : String → Bool)
    (nowMs : ℚ) (relayReports : List (String × List NDKEvent)) :
    (mergeCachedRelays now cacheValues
        = convertPopularRelaysToNIP66NW now ++ discoveredSortedNW now cacheValues)
    ∧ (∀ c, c ∈ convertPopularRelaysToNIP66NW now → c ∈ mergeCachedRelays now cacheValues)
    ∧ (∀ d, d ∈ discoveredSortedNW now cacheValues →
        d.url ∉ (convertPopularRelaysToNIP66NW now).map NIP66Relay.url)
    ∧ List.Sorted byConfidenceDesc (discoveredSortedNW now cacheValues)
    ∧ (updateDiscoveredRelays parseMeta trusted nowMs now relayReports
        = convertPopularRelaysToNIP66Disc now
            ++ discoveredSortedDisc parseMeta trusted nowMs now relayReports)
    ∧ (∀ c, c ∈ convertPopularRelaysToNIP66Disc now →
        c ∈ updateDiscoveredRelays parseMeta trusted nowMs now relayReports)
    ∧ (∀ d, d ∈ discoveredSortedDisc parseMeta trusted nowMs now relayReports →
        d.url ∉ (convertPopularRelaysToNIP66Disc now).map NIP66Relay.url)
    ∧ List.Sorted byConfidenceDesc
        (discoveredSortedDisc parseMeta trusted nowMs now relayReports) := by
  refine ⟨rfl, ?_, ?_, ?_, rfl, ?_, ?_, ?_⟩
  · intro c hc; exact List.mem_append_left _ hc
  · intro d hd; exact mem_discoveredSortedNW now cacheValues d hd
  · exact List.sorted_insertionSort byConfidenceDesc _
  · intro c hc; exact List.mem_append_left _ hc
  · intro d hd
    exact (mem_discoveredSortedDisc parseMeta trusted nowMs now relayReports d hd).1
  · exact List.sorted_insertionSort byConfidenceDesc _

/-- The first curated entry of the NostrWatch conversion at `now = 0`. -/
def curatedHeadNW : NIP66Relay :=
  { url := "wss://relay.damus.io", name := some "Damus Relay",
    description := some "Popular general-purpose relay", status := .unknown,
    lastChecked := 0, nips := none, monitors := [], confidence := 9/10,
    metadata := none, geographic := none }

theorem curatedHeadNW_mem : curatedHeadNW ∈ convertPopularRelaysToNIP66NW 0 := by
  unfold convertPopularRelaysToNIP66NW popularRelays
  simp only [List.map_cons]
  exact List.mem_cons.mpr (Or.inl rfl)

theorem relayC3_mem_discoveredNW : relayC3 ∈ discoveredSortedNW 0 [relayC3] :=
  List.mem_cons_self relayC3 []

/-- Witness for C9 at a concrete merge: the cache holds one discovered
relay; the first curated entry is in the merged catalog, and the
discovered entry's address is not curated. -/
theorem C9_witness :
    curatedHeadNW ∈ mergeCachedRelays 0 [relayC3]
      ∧ relayC3.url ∉ (convertPopularRelaysToNIP66NW 0).map NIP66Relay.url :=
  ⟨(C9_merge_curated_wins 0 [relayC3] (fun _ => none) (fun _ => false) 0 []).2.1
      curatedHeadNW curatedHeadNW_mem,
   (C9_merge_curated_wins 0 [relayC3] (fun _ => none) (fun _ => false) 0 []).2.2.1
      relayC3 relayC3_mem_discoveredNW⟩

/-! ### Claim C6 -/

/-- C6: when the run reaches the network (no fresh cache short-circuit)
and the nostr.watch fetch fails, `discoverRelays` still returns a state
whose relays are exactly the curated list at baseline confidence 0.9,
with `loading = false` and `error = none`; the model is a total function,
mirroring that the source catches every failure (no exception
propagates). -/
theorem C6_discovery_floor (now lastFetchTime : ℤ)
    (cache : List (String × NIP66Relay)) (errMsg : String)
    (hcache : cache = []) :
    (discoverRelaysNW now lastFetchTime cache (.error errMsg)).relays
        = convertPopularRelaysToNIP66NW now
      ∧ (discoverRelaysNW now lastFetchTime cache (.error errMsg)).loading = false
      ∧ (discoverRelaysNW now lastFetchTime cache (.error errMsg)).error = none
      ∧ ∀ r ∈ (discoverRelaysNW now lastFetchTime cache (.error errMsg)).relays,
          r.confidence = 9/10 := by
  subst hcache
  have hcond : ¬(0 < ([] : List (String × NIP66Relay)).length
      ∧ now - lastFetchTime < NW_CACHE_DURATION) := by simp
  unfold discoverRelaysNW
  rw [if_neg hcond]
  refine ⟨rfl, rfl, rfl, ?_⟩
  intro r hr
  simp only [convertPopularRelaysToNIP66NW] at hr
  obtain ⟨info, -, rfl⟩ := List.mem_map.mp hr
  rfl

/-- Witness for C6 at a concrete failing run. -/
theorem C6_witness :
    (discoverRelaysNW 0 0 [] (.error "network down")).relays
        = convertPopularRelaysToNIP66NW 0
      ∧ (discoverRelaysNW 0 0 [] (.error "network down")).loading = false
      ∧ (discoverRelaysNW 0 0 [] (.error "network down")).error = none
      ∧ curatedHeadNW.confidence = 9/10 :=
  ⟨(C6_discovery_floor 0 0 [] "network down" rfl).1,
   (C6_discovery_floor 0 0 [] "network down" rfl).2.1,
   (C6_discovery_floor 0 0 [] "network down" rfl).2.2.1,
   (C6_discovery_floor 0 0 [] "network down" rfl).2.2.2 curatedHeadNW
     (show curatedHeadNW ∈ convertPopularRelaysToNIP66NW 0 from curatedHeadNW_mem)⟩

/-! ### Connection: `src/contexts/NostrContext.tsx` and claim C5 -/

/-- The connection status union. -/
inductive ConnectionStatus where
  | disconnected
  | connecting
  | connected
  | error
deriving DecidableEq

/-- The provider state `connect`/`disconnect` touch synchronously. -/
structure ConnState where
  ndkPresent : Bool
  isConnected : Bool
  connectionError : Option String
  relayUrl : Option String
  relayMetadata : Option RelayMetadata
  connectionStatus : ConnectionStatus
  activeSubscriptions : List ℕ
deriving DecidableEq

/-- Lines 64-159: the synchronous effect of `connect(url)`.  There is NO
validation of `url` and no rejection path: the function unconditionally
clears timers, sets status to `connecting`, clears the error, records the
url, stops and clears prior subscriptions when an NDK instance exists,
and installs a fresh NDK instance; the handshake outcome arrives only via
later callbacks. -/
def connectModel (s : ConnState) (url : String) : ConnState :=
  { s with
    connectionStatus := .connecting,
    connectionError := none,
    relayUrl := some url,
    activeSubscriptions := if s.ndkPresent then [] else s.activeSubscriptions,
    ndkPresent := true }

/-- Lines 161-202: `disconnect()` — everything cleared and reset. -/
def disconnectModel (_s : ConnState) : ConnState :=
  { ndkPresent := false, isConnected := false, connectionError := none,
    relayUrl := none, relayMetadata := none, connectionStatus := .disconnected,
    activeSubscriptions := [] }

/-- `handleConnect` in `src/components/relay-connector.tsx`: the UI
caller validates with `validateRelayUrl` and, on an invalid address,
only alerts — `connect` is never invoked and no state changes. -/
def handleConnectModel (s : ConnState) (inputUrl : String) : ConnState :=
  if !(validateRelayUrl inputUrl) then s
  else if s.isConnected then disconnectModel s
  else connectModel s inputUrl

/-- The provider's initial state. -/
def initialConnState : ConnState :=
  { ndkPresent := false, isConnected := false, connectionError := none,
    relayUrl := none, relayMetadata := none, connectionStatus := .disconnected,
    activeSubscriptions := [] }

/-- Counterexample for C5: "not-a-url" is not a well-formed relay URL,
yet `connect` does not reject — it changes state, transitioning the
status to `connecting` (there is no ValidationError anywhere in
`connect`). -/
theorem C5_counterexample :
    validateRelayUrl "not-a-url" = false
      ∧ connectModel initialConnState "not-a-url" ≠ initialConnState
      ∧ (connectModel initialConnState "not-a-url").connectionStatus
        = ConnectionStatus.connecting := by
  refine ⟨by decide, by decide, by decide⟩

/-- C5 amended: address validation lives in the UI caller, not in
`connect`: for every address failing `validateRelayUrl`, `handleConnect`
performs no state change (and never invokes `connect`), while `connect`
itself, if called directly, unconditionally transitions the status to
`connecting`. -/
theorem C5_validation_in_caller (s : ConnState) (url : String)
    (h : validateRelayUrl url = false) :
    handleConnectModel s url = s
      ∧ (connectModel s url).connectionStatus = ConnectionStatus.connecting := by
  constructor
  · simp [handleConnectModel, h]
  · rfl

/-- Witness for C5's amended theorem at the concrete invalid address. -/
theorem C5_witness :
    handleConnectModel initialConnState "not-a-url" = initialConnState
      ∧ (connectModel initialConnState "not-a-url").connectionStatus
        = ConnectionStatus.connecting :=
  C5_validation_in_caller initialConnState "not-a-url" (by decide)

end RelayExplorer
